import Mathlib

/-!
Verification development for the mitocore repository: a shallow embedding of
the sequence/coordinate model (`mitocore/molecular.py`) and of the trie-based
multi-pattern search engine (`mitocore/search.py`), together with theorems
settling the specification claims about them.

Python strings are embedded as `List Char`, Python `int` as `Int`
(Python's `%` on a positive divisor agrees with `Int.emod`), and fallible
operations (`ZeroDivisionError`, `TypeError`, raising handlers) as
`Option`/`Except` values.
-/

namespace Mitocore

/-- Strand enum from `molecular.py` (`forward = '+'`, `reverse = '-'`);
declaration order (forward, then reverse) is the Python iteration order. -/
inductive Strand : Type where
  | forward : Strand
  | reverse : Strand
deriving DecidableEq

/-- Locus named tuple from `molecular.py`: `(position, length, strand)`.
Both integers are Python `int`s, hence `Int`. -/
structure Locus : Type where
  position : Int
  length : Int
  strand : Strand
deriving DecidableEq

/-- Locus.__add__ from `molecular.py`:
strand is `self.strand` when `other.strand == forward`, otherwise the flip of
`self.strand`; position is the plain integer sum; length is `other.length`. -/
def Locus.add (self other : Locus) : Locus :=
  let strand := if other.strand = Strand.forward then self.strand
    else (if self.strand = Strand.reverse then Strand.forward else Strand.reverse)
  let position := self.position + other.position
  let length := other.length
  Locus.mk position length strand

/-- Modelled from the spec (section 3): the flip of a strand, forward↔reverse.
Used only to state the claimed composition rule against `Locus.add`. -/
def Strand.flip : Strand → Strand
  | Strand.forward => Strand.reverse
  | Strand.reverse => Strand.forward

/-- The `_complements_table` dict of `AbstractGeneticSequence`, as a partial
lookup (`none` models a key that is absent from the dict). -/
def complementsTable (c : Char) : Option Char :=
  match c with
  | 'A' => some 'T' | 'C' => some 'G' | 'G' => some 'C' | 'T' => some 'A'
  | 'S' => some 'W' | 'W' => some 'S'
  | 'Y' => some 'R' | 'R' => some 'Y'
  | 'K' => some 'M' | 'M' => some 'K'
  | 'V' => some 'B' | 'B' => some 'V'
  | 'D' => some 'H' | 'H' => some 'D'
  | 'N' => some 'N'
  | _ => none

/-- The `_inclusions_table` dict of `AbstractGeneticSequence`, copied verbatim
from the source — including the `'M' ↦ ['A','C','K']` entry as written there. -/
def inclusionsTable (c : Char) : Option (List Char) :=
  match c with
  | 'S' => some ['C', 'G', 'S'] | 'W' => some ['A', 'T', 'W']
  | 'Y' => some ['C', 'T', 'Y'] | 'R' => some ['A', 'G', 'R']
  | 'K' => some ['G', 'T', 'K'] | 'M' => some ['A', 'C', 'K']
  | 'B' => some ['C', 'G', 'T', 'S', 'Y', 'K', 'B']
  | 'D' => some ['A', 'G', 'T', 'R', 'D']
  | 'H' => some ['A', 'C', 'T', 'M', 'H']
  | 'V' => some ['A', 'C', 'G', 'S', 'R', 'M', 'V']
  | 'N' => some ['A', 'C', 'G', 'T', 'S', 'W', 'Y', 'R', 'K', 'M', 'N']
  | _ => none

/-- `generate_complement`: map each symbol through the complement table,
symbols absent from the table become the `_skip` placeholder `'-'`. -/
def generate_complement (sequence : List Char) : List Char :=
  sequence.map (fun n => (complementsTable n).getD '-')

/-- itertools.product over a list of factor lists: the first factor varies
slowest, exactly as `product(*lists)` iterates in Python. -/
def pyProduct : List (List Char) → List (List Char)
  | [] => [[]]
  | l :: ls => l.flatMap (fun x => (pyProduct ls).map (fun inst => x :: inst))

/-- `generate_instances`: the Cartesian product over, for each symbol, its
inclusion-table entry, or the singleton `tuple(n)` when the symbol is not a
table key. -/
def generate_instances (sequence : List Char) : List (List Char) :=
  pyProduct (sequence.map (fun n => (inclusionsTable n).getD [n]))

/-- GeneticSequence: the `forward` strand string plus the `_reverse` slot set
by `__init__` (just `None` for the one-argument constructor, i.e. not yet
derived). -/
structure GeneticSequence : Type where
  forward : List Char
  reverseSlot : Option (List Char)
deriving DecidableEq

/-- The one-argument constructor `GeneticSequence(strand)`: the reverse slot
starts out empty and is derived on demand. -/
def GeneticSequence.make (strand : List Char) : GeneticSequence :=
  GeneticSequence.mk strand none

/-- The `reverse` property: return the cached `_reverse` string when present,
otherwise `generate_complement(self.forward[::-1])`. -/
def GeneticSequence.reverse (s : GeneticSequence) : List Char :=
  match s.reverseSlot with
  | some r => r
  | none => generate_complement s.forward.reverse

/-- GeneticSequence.__len__: the length of the forward string. -/
def GeneticSequence.len (s : GeneticSequence) : Nat :=
  s.forward.length

/-- GeneticSequence.__neg__: `GeneticSequence(self.reverse, self.forward)` —
swap the strands, passing the old forward string as the new cached reverse. -/
def GeneticSequence.neg (s : GeneticSequence) : GeneticSequence :=
  GeneticSequence.mk s.reverse (some s.forward)

/-- The `instances` property: one `GeneticSequence` per concrete expansion of
the forward string. -/
def GeneticSequence.instances (s : GeneticSequence) : List GeneticSequence :=
  (generate_instances s.forward).map GeneticSequence.make

/-- Python `%` on integers: raises `ZeroDivisionError` when the divisor is 0
(so `none` here); for a positive divisor it returns the representative in
`[0, divisor)`, which is `Int.emod`. -/
def pyMod (a b : Int) : Option Int :=
  if b = 0 then none else some (a % b)

/-- Python slice `s[a : b]` for arbitrary integer bounds: a negative bound
counts from the end and bounds are clamped into `[0, len(s)]`; the result is
empty when the normalized stop does not exceed the normalized start. -/
def pyslice (s : List Char) (a b : Int) : List Char :=
  let L : Int := s.length
  let a' : Int := if a < 0 then max 0 (L + a) else min a L
  let b' : Int := if b < 0 then max 0 (L + b) else min b L
  (s.take b'.toNat).drop a'.toNat

/-- GeneticSequence.__getitem__: circular windowed extraction by a `Locus`.
`none` models the `ZeroDivisionError` raised by `% len(self)` on a
zero-length sequence. -/
def GeneticSequence.getItem (s : GeneticSequence) (item : Locus) : Option GeneticSequence :=
  let L : Int := s.forward.length
  if item.strand = Strand.forward then
    match pyMod item.position L with
    | none => none
    | some start =>
      let stop := start + item.length
      some (GeneticSequence.make
        (pyslice s.forward start (min stop L) ++ pyslice s.forward 0 (max 0 (stop - L))))
  else
    match pyMod (L - item.position) L with
    | none => none
    | some start =>
      let stop := start + item.length
      some (GeneticSequence.make
        (pyslice s.reverse start (min stop L) ++ pyslice s.reverse 0 (max 0 (stop - L))))

/-- Modelled from the spec (section 4.2, `extract(locus)`), stated in the
spec's own words: on the forward strand `start = position mod length()`,
`stop = start + length`, result
`forward[start : min(stop, length())] + forward[0 : max(0, stop - length())]`;
on the reverse strand the same slice-and-wrap formula applied to `reverse`
with `start = (length() - position) mod length()`. Written independently of
`GeneticSequence.getItem` so the two can be compared. -/
def extractSpec (s : GeneticSequence) (locus : Locus) : Option GeneticSequence :=
  if locus.strand = Strand.forward then
    match pyMod locus.position (s.len : Int) with
    | none => none
    | some start =>
      let stop := start + locus.length
      some (GeneticSequence.make
        (pyslice s.forward start (min stop (s.len : Int)) ++
         pyslice s.forward 0 (max 0 (stop - (s.len : Int)))))
  else
    match pyMod ((s.len : Int) - locus.position) (s.len : Int) with
    | none => none
    | some start =>
      let stop := start + locus.length
      some (GeneticSequence.make
        (pyslice s.reverse start (min stop (s.len : Int)) ++
         pyslice s.reverse 0 (max 0 (stop - (s.len : Int)))))

/-- Site from `search.py`: a sequence paired with a locus (`self.on`,
`self.at`; the fields are spelled `on'`/`at'` because both names are
reserved words in Lean). -/
structure Site : Type where
  on' : GeneticSequence
  at' : Locus
deriving DecidableEq

/-- A field of the `Locus` named tuple, tagged by which field it is; used to
embed Python's `len()` of a named-tuple instance. -/
inductive LocusField : Type where
  | position : Int → LocusField
  | length : Int → LocusField
  | strand : Strand → LocusField
deriving DecidableEq

/-- A `Locus` value viewed as the tuple Python's named tuple is: the ordered
list of its three fields. `len(locus)` in Python is the length of this tuple. -/
def Locus.asTuple (l : Locus) : List LocusField :=
  [LocusField.position l.position, LocusField.length l.length, LocusField.strand l.strand]

/-- Site.__len__ from `search.py`: `len(self.at)`, Python's `len()` of the
`Locus` named tuple. -/
def Site.lenSite (s : Site) : Nat :=
  s.at'.asTuple.length

/-- Handler type for the pure (non-raising) embedding of the search engine:
any callable taking `(sequence, locus)`; its results are Sites here, matching
the shape the default no-handler path produces. -/
def PureHandler : Type := GeneticSequence → Locus → Site

/-- Handler type for the raising embedding: a handler invocation may fail
with an exception of type `ε` instead of returning a result. -/
def HandlerE (ε : Type) : Type := GeneticSequence → Locus → Except ε Site

/-- SearchTree named tuple from `search.py`: a result list of
`(Strand, Optional[SearchMatchHandler])` pairs and a branches dict keyed by
symbol, embedded as an insertion-ordered association list (Python dicts
preserve insertion order). -/
inductive SearchTree (η : Type) : Type where
  | node (results : List (Strand × Option η)) (branches : List (Char × SearchTree η)) :
      SearchTree η

/-- The `results` field of a trie node. -/
def SearchTree.results {η : Type} : SearchTree η → List (Strand × Option η)
  | SearchTree.node rs _ => rs

/-- The `branches` field of a trie node. -/
def SearchTree.branches {η : Type} : SearchTree η → List (Char × SearchTree η)
  | SearchTree.node _ bs => bs

/-- Dict lookup `base.branches[n]` (with `n in base.branches.keys()` as the
`isSome` of the result). -/
def lookupBranch {η : Type} : List (Char × SearchTree η) → Char → Option (SearchTree η)
  | [], _ => none
  | (c, t) :: rest, n => if c = n then some t else lookupBranch rest n

/-- Dict update `base.branches[n] = u`: replace the entry in place when the
key exists, otherwise append it at the end (Python dict insertion order). -/
def setBranch {η : Type} :
    List (Char × SearchTree η) → Char → SearchTree η → List (Char × SearchTree η)
  | [], n, u => [(n, u)]
  | (c, t) :: rest, n, u =>
    if c = n then (n, u) :: rest else (c, t) :: setBranch rest n u

/-- The inner loop of `SiteSearch.add_query` for one instance string: walk
the trie along the string, creating missing branch nodes (`SearchTree([], {})`),
and append `(strand, handler)` to the result list of the terminal node. -/
def insertString {η : Type} (entry : Strand × Option η) :
    List Char → SearchTree η → SearchTree η
  | [], t => SearchTree.node (t.results ++ [entry]) t.branches
  | n :: rest, t =>
    let child := match lookupBranch t.branches n with
      | some u => u
      | none => SearchTree.node [] []
    SearchTree.node t.results (setBranch t.branches n (insertString entry rest child))

/-- SiteSearch.add_query: for every concrete instance of the query and for
each strand (forward first, then reverse, the enum order), insert the
instance's forward string (forward strand) or its reverse-complement string
(reverse strand) into the trie, recording `(strand, handler)` at the end. -/
def add_query {η : Type} (tree : SearchTree η) (query : GeneticSequence)
    (handler : Option η) : SearchTree η :=
  query.instances.foldl (fun t inst =>
    [Strand.forward, Strand.reverse].foldl (fun u strand =>
      insertString (strand, handler)
        (if strand = Strand.forward then inst.forward else inst.reverse) u) t) tree

/-- The locus built by `search_in` when it emits a result at starting offset
`i` and current depth: `Locus(i if strand == forward else i + depth, depth,
strand)`. -/
def emittedLocus (i depth : Nat) (strand : Strand) : Locus :=
  Locus.mk (if strand = Strand.forward then (i : Int) else ((i + depth : Nat) : Int))
    (depth : Int) strand

/-- The per-offset `while` loop of `SiteSearch.search_in`, with all handlers
total (`PureHandler`): look up the symbol at circular position
`(i + depth) % len(sequence)` of the forward string; on a hit descend,
increment the depth, emit every `(strand, handler)` recorded at the new node
(a `Site` when the handler slot is `None`, the handler's return value
otherwise), and continue; stop at the first missing edge. The `fuel`
argument only bounds the descent: each step goes strictly deeper into the
finite trie, so any fuel at least the trie height reproduces the loop. -/
def walk (seq : GeneticSequence) (i : Nat) :
    Nat → SearchTree PureHandler → Nat → List Site
  | 0, _, _ => []
  | fuel + 1, t, depth =>
    match lookupBranch t.branches (seq.forward.getD ((i + depth) % seq.forward.length) '?') with
    | none => []
    | some child =>
      child.results.map (fun p =>
        match p.2 with
        | none => Site.mk seq (emittedLocus i (depth + 1) p.1)
        | some h => h seq (emittedLocus i (depth + 1) p.1)) ++
      walk seq i fuel child (depth + 1)

/-- SiteSearch.search_in with all handlers total: run the trie walk from
every starting offset `i` in `range(len(sequence))` and concatenate the
emitted results in order. -/
def search_in (fuel : Nat) (tree : SearchTree PureHandler) (seq : GeneticSequence) :
    List Site :=
  (List.range seq.len).flatMap (fun i => walk seq i fuel tree 0)

/-- The same `while` loop instrumented to record, instead of materializing,
each emission: the locus `search_in` computes together with the handler slot
it would dispatch on, in emission order. -/
def walkEmits {η : Type} (seq : GeneticSequence) (i : Nat) :
    Nat → SearchTree η → Nat → List (Locus × Option η)
  | 0, _, _ => []
  | fuel + 1, t, depth =>
    match lookupBranch t.branches (seq.forward.getD ((i + depth) % seq.forward.length) '?') with
    | none => []
    | some child =>
      child.results.map (fun p => (emittedLocus i (depth + 1) p.1, p.2)) ++
      walkEmits seq i fuel child (depth + 1)

/-- All emissions of a full scan, across starting offsets in order. -/
def allEmits {η : Type} (fuel : Nat) (tree : SearchTree η) (seq : GeneticSequence) :
    List (Locus × Option η) :=
  (List.range seq.len).flatMap (fun i => walkEmits seq i fuel tree 0)

/-- One emission with a raising handler: the `results.append(...)` argument,
a `Site` when the handler slot is `None`, the handler's (possibly failing)
return value otherwise. -/
def emitOneE {ε : Type} (seq : GeneticSequence) (i depth : Nat)
    (p : Strand × Option (HandlerE ε)) : Except ε Site :=
  match p.2 with
  | none => Except.ok (Site.mk seq (emittedLocus i depth p.1))
  | some h => h seq (emittedLocus i depth p.1)

/-- The inner `for strand, handler in base.results` loop with raising
handlers: emit in list order, aborting at the first failure. -/
def emitResultsE {ε : Type} (seq : GeneticSequence) (i depth : Nat) :
    List (Strand × Option (HandlerE ε)) → Except ε (List Site)
  | [] => Except.ok []
  | p :: rest =>
    match emitOneE seq i depth p with
    | Except.error e => Except.error e
    | Except.ok s =>
      match emitResultsE seq i depth rest with
      | Except.error e => Except.error e
      | Except.ok l => Except.ok (s :: l)

/-- The per-offset `while` loop of `SiteSearch.search_in` with raising
handlers: a handler invocation that fails aborts the whole walk with its
error, exactly as a Python exception propagates out of the loop. -/
def walkE {ε : Type} (seq : GeneticSequence) (i : Nat) :
    Nat → SearchTree (HandlerE ε) → Nat → Except ε (List Site)
  | 0, _, _ => Except.ok []
  | fuel + 1, t, depth =>
    match lookupBranch t.branches (seq.forward.getD ((i + depth) % seq.forward.length) '?') with
    | none => Except.ok []
    | some child =>
      match emitResultsE seq i (depth + 1) child.results with
      | Except.error e => Except.error e
      | Except.ok emitted =>
        match walkE seq i fuel child (depth + 1) with
        | Except.error e => Except.error e
        | Except.ok rest => Except.ok (emitted ++ rest)

/-- The `for i in range(len(sequence))` loop of `SiteSearch.search_in` with
raising handlers, accumulating the `results` list; the first failure aborts
the whole scan, discarding the accumulator. -/
def search_inE_loop {ε : Type} (fuel : Nat) (tree : SearchTree (HandlerE ε))
    (seq : GeneticSequence) : List Nat → List Site → Except ε (List Site)
  | [], acc => Except.ok acc
  | i :: is, acc =>
    match walkE seq i fuel tree 0 with
    | Except.error e => Except.error e
    | Except.ok r => search_inE_loop fuel tree seq is (acc ++ r)

/-- SiteSearch.search_in with raising handlers: walk every starting offset in
order; the first handler failure propagates and no result list is returned. -/
def search_inE {ε : Type} (fuel : Nat) (tree : SearchTree (HandlerE ε))
    (seq : GeneticSequence) : Except ε (List Site) :=
  search_inE_loop fuel tree seq (List.range seq.len) []

/-- Materialize a list of recorded emissions in order: a `Site` for an empty
handler slot, the handler's returned value otherwise; the first handler
failure aborts with its error. -/
def processEmits {ε : Type} (seq : GeneticSequence) :
    List (Locus × Option (HandlerE ε)) → Except ε (List Site)
  | [] => Except.ok []
  | (loc, none) :: rest =>
    match processEmits seq rest with
    | Except.error e => Except.error e
    | Except.ok r => Except.ok (Site.mk seq loc :: r)
  | (loc, some h) :: rest =>
    match h seq loc with
    | Except.error e => Except.error e
    | Except.ok s =>
      match processEmits seq rest with
      | Except.error e => Except.error e
      | Except.ok r => Except.ok (s :: r)

/-- Python `str.split('\n')`: split at every newline, keeping empty pieces;
the empty string splits into the single empty line `[""]`. -/
def splitLines : List Char → List (List Char)
  | [] => [[]]
  | c :: rest =>
    if c = '\n' then [] :: splitLines rest
    else
      match splitLines rest with
      | l :: ls => (c :: l) :: ls
      | [] => [[c]]

/-- Python `line.startswith(p)` for the one-character prefixes `'>'` and
`'!'` used by `from_fasta`: test the first character. -/
def startsWithChar (line : List Char) (c : Char) : Bool :=
  match line with
  | [] => false
  | x :: _ => x = c

/-- The line loop of `GeneticSequence.from_fasta`, including the final
append: `com`/`seq` are the `com, seq = None, None` state; a header line
(prefix `'>'`) flushes the current record and restarts `seq` at `''`; a
comment line (prefix `'!'`) is skipped; any other line is appended to `seq` —
which raises `TypeError` (here `none`) when `seq` is still `None`. -/
def from_fasta_loop :
    List (List Char) → Option (List Char) → Option (List Char) →
    List (List Char × GeneticSequence) → Option (List (List Char × GeneticSequence))
  | [], com, seq, result =>
    match com with
    | some c => some (result ++ [(c, GeneticSequence.make (seq.getD []))])
    | none => some result
  | line :: rest, com, seq, result =>
    if startsWithChar line '>' then
      let result' := match com with
        | some c => result ++ [(c, GeneticSequence.make (seq.getD []))]
        | none => result
      from_fasta_loop rest (some (line.drop 1)) (some []) result'
    else if startsWithChar line '!' then
      from_fasta_loop rest com seq result
    else
      match seq with
      | none => none
      | some s => from_fasta_loop rest com (some (s ++ line)) result

/-- GeneticSequence.from_fasta with the default `'>'`/`'!'` prefixes: split
the input into lines and run the record loop; `none` models the `TypeError`
from `seq += line` while `seq` is still `None`. -/
def from_fasta (fasta : List Char) : Option (List (List Char × GeneticSequence)) :=
  from_fasta_loop (splitLines fasta) none none []

/-- The empty trie `SearchTree([], {})` built by `SiteSearch.__init__`. -/
def emptyTree {η : Type} : SearchTree η :=
  SearchTree.node [] []

/-- The trie of a `SiteSearch` after `add_query(GeneticSequence("AC"))` with
no handler: the literal `"AC"` on the forward strand and its
reverse-complement literal `"GT"` on the reverse strand. -/
def acTrie : SearchTree PureHandler :=
  add_query emptyTree (GeneticSequence.make ['A', 'C']) none

/-- The trie of a `SiteSearch` after `add_query(GeneticSequence("AC"))` and
then `add_query(GeneticSequence("ACG"))`, both with no handler. -/
def acAcgTrie : SearchTree PureHandler :=
  add_query (add_query emptyTree (GeneticSequence.make ['A', 'C']) none)
    (GeneticSequence.make ['A', 'C', 'G']) none

/-- The concrete target sequence `GeneticSequence("ACGT")`. -/
def seqACGT : GeneticSequence :=
  GeneticSequence.make ['A', 'C', 'G', 'T']

/-- The concrete sequence `GeneticSequence("ACG")`, used to instantiate
hypotheses of the general theorems. -/
def gsACG : GeneticSequence :=
  GeneticSequence.make ['A', 'C', 'G']

/-- The concrete sequence `GeneticSequence("AGT")`: its forward string
contains `"GT"` at offset 1. -/
def gsAGT : GeneticSequence :=
  GeneticSequence.make ['A', 'G', 'T']

/-- A zero-length sequence, `GeneticSequence("")`. -/
def emptyGS : GeneticSequence :=
  GeneticSequence.make []

/-- A handler that always fails, used to exercise failure propagation. -/
def failHandler : HandlerE (List Char) :=
  fun _ _ => Except.error ['b', 'o', 'o', 'm']

/-- The trie of a `SiteSearch` after `add_query(GeneticSequence("A"),
failHandler)`: both strand entries carry the failing handler. -/
def failTrie : SearchTree (HandlerE (List Char)) :=
  add_query emptyTree (GeneticSequence.make ['A']) (some failHandler)

/-- The concrete one-symbol target `GeneticSequence("A")`. -/
def seqA : GeneticSequence :=
  GeneticSequence.make ['A']

/-! ### Helper lemmas -/

/-- The number of tuples in the Cartesian product is the product of the
factor sizes. -/
theorem pyProduct_length (ls : List (List Char)) :
    (pyProduct ls).length = (ls.map List.length).prod := by
  induction ls with
  | nil => simp [pyProduct]
  | cons l rest ih =>
    simp only [pyProduct, List.length_flatMap, List.map_map, Function.comp_def,
      List.length_map, List.map_const', List.sum_replicate, smul_eq_mul,
      List.map_cons, List.prod_cons, ih]

/-- A Python slice with in-range natural bounds is plain take-and-drop. -/
theorem pyslice_coe (s : List Char) (a b : Nat) (ha : a ≤ s.length) (hb : b ≤ s.length) :
    pyslice s (a : Int) (b : Int) = (s.take b).drop a := by
  simp only [pyslice]
  rw [if_neg (by omega), if_neg (by omega)]
  have hma : min (a : Int) (s.length : Int) = (a : Int) := by omega
  have hmb : min (b : Int) (s.length : Int) = (b : Int) := by omega
  rw [hma, hmb, Int.toNat_ofNat, Int.toNat_ofNat]

/-- Dropping all but the final element of a list leaves that element. -/
theorem drop_len_sub_one (l : List Char) (n : Nat) (h : n + 1 = l.length) :
    l.drop n = [l.getD n '?'] := by
  have hn : n < l.length := by omega
  rw [List.drop_eq_getElem_cons hn, List.getD_eq_getElem l '?' hn, h, List.drop_length]

/-- The first two elements of a list of length at least two. -/
theorem take_two (l : List Char) (h : 2 ≤ l.length) :
    l.take 2 = [l.getD 0 '?', l.getD 1 '?'] := by
  match l, h with
  | x :: y :: t, _ => simp [List.getD]

/-- Shape of the locus built at offset `i` and depth `depth`. -/
theorem emittedLocus_shape (i depth : Nat) (st : Strand) :
    (emittedLocus i depth st).length = (depth : Int) ∧
    (emittedLocus i depth st).strand = st ∧
    (st = Strand.forward → (emittedLocus i depth st).position = (i : Int)) ∧
    (st = Strand.reverse → (emittedLocus i depth st).position = (i : Int) + (depth : Int)) := by
  cases st <;> simp [emittedLocus]

/-- Every emission recorded while walking from offset `i` at depth `d` has a
locus of the emitted shape: its length is the (strictly deeper) emission
depth, and its position is `i` on the forward strand, `i + depth` on the
reverse strand. -/
theorem walkEmits_shape {η : Type} (seq : GeneticSequence) (i : Nat) :
    ∀ (fuel : Nat) (t : SearchTree η) (d : Nat) (loc : Locus) (oh : Option η),
      (loc, oh) ∈ walkEmits seq i fuel t d →
      (d : Int) < loc.length ∧
      (loc.strand = Strand.forward → loc.position = (i : Int)) ∧
      (loc.strand = Strand.reverse → loc.position = (i : Int) + loc.length) := by
  intro fuel
  induction fuel with
  | zero =>
    intro t d loc oh h
    simp [walkEmits] at h
  | succ n ih =>
    intro t d loc oh h
    rw [walkEmits] at h
    cases hlk : lookupBranch t.branches
        (seq.forward.getD ((i + d) % seq.forward.length) '?') with
    | none => rw [hlk] at h; simp at h
    | some child =>
      rw [hlk] at h
      rcases List.mem_append.mp h with hm | hm
      · rcases List.mem_map.mp hm with ⟨p, _, hpe⟩
        have hloc : loc = emittedLocus i (d + 1) p.1 := by
          have hfst := congrArg Prod.fst hpe
          simpa using hfst.symm
        obtain ⟨he1, he2, he3, he4⟩ := emittedLocus_shape i (d + 1) p.1
        subst hloc
        refine ⟨by rw [he1]; push_cast; omega, ?_, ?_⟩
        · intro hstr
          exact he3 (he2 ▸ hstr)
        · intro hstr
          rw [he4 (he2 ▸ hstr), he1]
      · obtain ⟨hlen, hfwd, hrev⟩ := ih child (d + 1) loc oh hm
        refine ⟨?_, hfwd, hrev⟩
        have : ((d + 1 : Nat) : Int) ≤ loc.length := le_of_lt hlen
        push_cast at this
        omega

/-! ### Claims -/

/-- C6: Locus composition (`Locus.__add__`) adds positions as plain integers,
takes the length from the right operand, and keeps the left strand when the
right strand is forward, flipping it otherwise; in particular
`Locus(5,1,forward) ∘ Locus(2,4,reverse)` is `Locus(7,4,reverse)` and
`Locus(5,1,reverse) ∘ Locus(2,4,reverse)` is `Locus(7,4,forward)`. -/
theorem claim_C6 :
    (∀ A B : Locus, Locus.add A B =
      Locus.mk (A.position + B.position) B.length
        (if B.strand = Strand.forward then A.strand else A.strand.flip)) ∧
    Locus.add (Locus.mk 5 1 Strand.forward) (Locus.mk 2 4 Strand.reverse) =
      Locus.mk 7 4 Strand.reverse ∧
    Locus.add (Locus.mk 5 1 Strand.reverse) (Locus.mk 2 4 Strand.reverse) =
      Locus.mk 7 4 Strand.forward := by
  refine ⟨fun A B => ?_, by decide, by decide⟩
  cases hA : A.strand <;> cases hB : B.strand <;>
    simp [Locus.add, Strand.flip, hA, hB]

/-- C7: negation (`GeneticSequence.__neg__`) swaps the strands — the new
forward string is the old reverse string and the new cached reverse string is
the old forward string — so negating twice restores the forward string. -/
theorem claim_C7 :
    ∀ x : GeneticSequence,
      (GeneticSequence.neg x).forward = x.reverse ∧
      (GeneticSequence.neg x).reverse = x.forward ∧
      (GeneticSequence.neg (GeneticSequence.neg x)).forward = x.forward :=
  fun _ => ⟨rfl, rfl, rfl⟩

/-- C9: `Site.__len__` returns `len(self.at)`, the arity 3 of the `Locus`
named tuple, for every Site — it equals the locus's window length exactly
when that length happens to be 3. -/
theorem claim_C9 :
    ∀ s : Site, Site.lenSite s = 3 ∧
      ((Site.lenSite s : Int) = s.at'.length ↔ s.at'.length = 3) := by
  intro s
  have h3 : Site.lenSite s = 3 := rfl
  rw [h3]
  exact ⟨rfl, fun h => by omega, fun h => by omega⟩

/-- C5: with `"AC"` and `"ACG"` registered as queries, the walk of target
`"ACGT"` from starting offset 0 emits exactly two results — length 2 and
length 3, both at position 0 on the forward strand — for every sufficient
fuel bound (the walk dead-ends at depth 3, so fuel 4 and up all agree). -/
theorem claim_C5 :
    ∀ n : Nat, walk seqACGT 0 (n + 4) acAcgTrie 0 =
      [Site.mk seqACGT (Locus.mk 0 2 Strand.forward),
       Site.mk seqACGT (Locus.mk 0 3 Strand.forward)] :=
  fun _ => rfl

/-- C2: every emission of the `search_in` walk from starting offset `i`
carries `Locus(i, depth, forward)` when the recorded strand is forward and
`Locus(i + depth, depth, reverse)` when it is reverse (the locus length is
the emission depth); and on the trie built by `add_query` for pattern
`"AC"`, scanning any target whose forward string has `'G'` at offset `k` and
`'T'` at offset `k+1` emits the match
`Site(seq, Locus(k + 2, 2, reverse))`. -/
theorem claim_C2 :
    (∀ (η : Type) (fuel : Nat) (seq : GeneticSequence) (i : Nat) (t : SearchTree η)
      (d : Nat) (loc : Locus) (oh : Option η),
      (loc, oh) ∈ walkEmits seq i fuel t d →
      (d : Int) < loc.length ∧
      (loc.strand = Strand.forward → loc.position = (i : Int)) ∧
      (loc.strand = Strand.reverse → loc.position = (i : Int) + loc.length)) ∧
    (∀ (fuel k : Nat) (seq : GeneticSequence), 3 ≤ fuel →
      k + 1 < seq.forward.length →
      seq.forward.getD k '?' = 'G' → seq.forward.getD (k + 1) '?' = 'T' →
      Site.mk seq (Locus.mk ((k : Int) + 2) 2 Strand.reverse) ∈
        search_in fuel acTrie seq) := by
  constructor
  · intro η fuel seq i t d loc oh h
    exact walkEmits_shape seq i fuel t d loc oh h
  · intro fuel k seq hf hk hG hT
    obtain ⟨m, rfl⟩ : ∃ m, fuel = m + 3 := ⟨fuel - 3, by omega⟩
    unfold search_in
    refine List.mem_flatMap.mpr
      ⟨k, List.mem_range.mpr (by unfold GeneticSequence.len; omega), ?_⟩
    have h0 : k % seq.forward.length = k := Nat.mod_eq_of_lt (by omega)
    have h1 : (k + 1) % seq.forward.length = k + 1 := Nat.mod_eq_of_lt hk
    have hAc : acTrie = SearchTree.node []
        [('A', SearchTree.node [] [('C', SearchTree.node [(Strand.forward, none)] [])]),
         ('G', SearchTree.node [] [('T', SearchTree.node [(Strand.reverse, none)] [])])] :=
      rfl
    rw [hAc]
    have hc0 : seq.forward.getD ((k + 0) % seq.forward.length) '?' = 'G' := by
      rw [Nat.add_zero, h0, hG]
    have hc1 : seq.forward.getD ((k + 1) % seq.forward.length) '?' = 'T' := by
      rw [h1, hT]
    simp only [walk, SearchTree.branches, SearchTree.results, Nat.reduceAdd, hc0, hc1,
      lookupBranch, reduceIte, List.map_cons, List.map_nil, List.append_nil,
      List.cons_append, List.nil_append]
    refine List.mem_singleton.mpr ?_
    simp only [emittedLocus, reduceIte, Site.mk.injEq, Locus.mk.injEq,
      eq_self_iff_true, and_true, true_and]
    push_cast
    exact ⟨rfl, trivial⟩

/-- C2 witness: both halves at the concrete target `"AGT"`, which has `'G'`
at offset 1 and `'T'` at offset 2: the only emission of the walk from offset
1 is `(Locus(3, 2, reverse), no handler)`, and the scan of the `"AC"` trie
over `"AGT"` contains the match `Site(seq, Locus(1 + 2, 2, reverse))`. -/
theorem claim_C2_witness :
    ((Locus.mk 3 2 Strand.reverse, (none : Option PureHandler)) ∈
      walkEmits gsAGT 1 3 acTrie 0) ∧
    ((0 : Int) < (Locus.mk 3 2 Strand.reverse).length ∧
      ((Locus.mk 3 2 Strand.reverse).strand = Strand.forward →
        (Locus.mk 3 2 Strand.reverse).position = (1 : Int)) ∧
      ((Locus.mk 3 2 Strand.reverse).strand = Strand.reverse →
        (Locus.mk 3 2 Strand.reverse).position =
          (1 : Int) + (Locus.mk 3 2 Strand.reverse).length)) ∧
    (3 ≤ 3 ∧ 1 + 1 < gsAGT.forward.length ∧ gsAGT.forward.getD 1 '?' = 'G' ∧
      gsAGT.forward.getD 2 '?' = 'T') ∧
    Site.mk gsAGT (Locus.mk ((1 : Int) + 2) 2 Strand.reverse) ∈
      search_in 3 acTrie gsAGT := by
  have hmem : (Locus.mk 3 2 Strand.reverse, (none : Option PureHandler)) ∈
      walkEmits gsAGT 1 3 acTrie 0 := by
    rw [show walkEmits gsAGT 1 3 acTrie 0 =
      [(Locus.mk 3 2 Strand.reverse, (none : Option PureHandler))] from rfl]
    exact List.mem_singleton.mpr rfl
  refine ⟨hmem, claim_C2.1 PureHandler 3 gsAGT 1 acTrie 0 _ _ hmem,
    ⟨le_refl 3, by decide, rfl, rfl⟩, ?_⟩
  exact claim_C2.2 3 1 gsAGT (le_refl 3) (by decide) rfl rfl

/-- C3: the number of expansions of a pattern is always the product of the
inclusion-table factor sizes (concrete symbols contributing factor 1); but at
the failing input `"M"` the expansions are `["A","C","K"]` — the source's
inclusion table maps `'M'` to `['A','C','K']`, so the claimed position-wise
consistency (every string of `expand("M")` standing only for bases in
`{A, C}`) fails on the code: `K` stands for G/T. -/
theorem claim_C3 :
    (∀ p : List Char, (generate_instances p).length =
      (p.map (fun n => ((inclusionsTable n).getD [n]).length)).prod) ∧
    generate_instances ['M'] = [['A'], ['C'], ['K']] := by
  refine ⟨fun p => ?_, rfl⟩
  simp only [generate_instances, pyProduct_length, List.map_map, Function.comp_def]

/-- C1: on every non-empty sequence, circular extraction
(`GeneticSequence.__getitem__`) returns exactly the window given by the
spec's slice-and-wrap formulas (`extractSpec`), and in particular extracting
`Locus(position = L-1, length = 3, strand = forward)` from a sequence of
length `L ≥ 2` yields `forward[L-1] + forward[0] + forward[1]`. -/
theorem claim_C1 :
    (∀ (s : GeneticSequence) (locus : Locus), s.forward ≠ [] →
      GeneticSequence.getItem s locus = extractSpec s locus) ∧
    (∀ (s : GeneticSequence) (L : Nat), s.forward.length = L → 2 ≤ L →
      GeneticSequence.getItem s (Locus.mk ((L : Int) - 1) 3 Strand.forward) =
        some (GeneticSequence.make
          [s.forward.getD (L - 1) '?', s.forward.getD 0 '?', s.forward.getD 1 '?'])) := by
  constructor
  · intro s locus _
    rfl
  · intro s L hL h2
    have hstart : pyMod ((L : Int) - 1) ((s.forward.length : Int)) =
        some ((L : Int) - 1) := by
      rw [hL]
      simp only [pyMod]
      rw [if_neg (by omega), Int.emod_eq_of_lt (by omega) (by omega)]
    have hmin : min ((L : Int) - 1 + 3) ((s.forward.length : Int)) = ((L : Nat) : Int) := by
      rw [hL]; omega
    have hmax : max 0 ((L : Int) - 1 + 3 - ((s.forward.length : Int))) =
        ((2 : Nat) : Int) := by
      rw [hL]; omega
    have hp1 : pyslice s.forward ((L : Int) - 1) ((L : Nat) : Int) =
        List.drop (L - 1) (List.take L s.forward) := by
      have h := pyslice_coe s.forward (L - 1) L (by omega) (by omega)
      rw [show (((L - 1 : Nat)) : Int) = (L : Int) - 1 from by omega] at h
      exact h
    have hp2 : pyslice s.forward (0 : Int) (((2 : Nat)) : Int) =
        List.drop 0 (List.take 2 s.forward) :=
      pyslice_coe s.forward 0 2 (by omega) (by omega)
    have htake : List.take L s.forward = s.forward := by
      rw [← hL]; simp
    simp only [GeneticSequence.getItem, hstart, hmin, hmax, hp1, hp2, htake,
      List.drop_zero, if_true]
    rw [drop_len_sub_one s.forward (L - 1) (by omega), take_two s.forward (by omega)]
    rfl

/-- C1 witness: both halves of the claim instantiated at the concrete
sequence `"ACG"` (length 3), where the wraparound window at position 2 is
`"GAC"`. -/
theorem claim_C1_witness :
    gsACG.forward ≠ [] ∧
    GeneticSequence.getItem gsACG (Locus.mk 0 2 Strand.reverse) =
      extractSpec gsACG (Locus.mk 0 2 Strand.reverse) ∧
    (gsACG.forward.length = 3 ∧ 2 ≤ 3) ∧
    GeneticSequence.getItem gsACG (Locus.mk ((3 : Int) - 1) 3 Strand.forward) =
      some (GeneticSequence.make
        [gsACG.forward.getD 2 '?', gsACG.forward.getD 0 '?', gsACG.forward.getD 1 '?']) := by
  refine ⟨by decide, claim_C1.1 gsACG (Locus.mk 0 2 Strand.reverse) (by decide),
    ⟨rfl, by omega⟩, ?_⟩
  exact claim_C1.2 gsACG 3 rfl (by omega)

/-- C4 counterexample: the claim says extraction never evaluates
`position mod length()` on a zero-length sequence, but
`GeneticSequence.__getitem__` has no guard: on `GeneticSequence("")` it
evaluates `0 % 0` (a `ZeroDivisionError`, `pyMod 0 0 = none`) and fails. -/
theorem claim_C4_counterexample :
    GeneticSequence.getItem emptyGS (Locus.mk 0 0 Strand.forward) = none ∧
    pyMod 0 0 = none :=
  ⟨rfl, rfl⟩

/-- C4 as amended: on a zero-length target, `search_in` returns the empty
result list (its `range` loop body never runs, so no modulo is reached), but
extraction (`GeneticSequence.__getitem__`) does evaluate
`position mod length()` with `length() == 0` and fails with
`ZeroDivisionError` for every Locus. -/
theorem claim_C4 :
    ∀ s : GeneticSequence, s.forward = [] →
      (∀ (fuel : Nat) (tree : SearchTree PureHandler), search_in fuel tree s = []) ∧
      (∀ item : Locus, GeneticSequence.getItem s item = none) := by
  intro s hs
  constructor
  · intro fuel tree
    simp [search_in, GeneticSequence.len, hs]
  · intro item
    unfold GeneticSequence.getItem
    rw [hs]
    by_cases h : item.strand = Strand.forward <;> simp [h, pyMod]

/-- C4 witness: the amended claim at the concrete empty sequence. -/
theorem claim_C4_witness :
    emptyGS.forward = [] ∧
    search_in 5 (emptyTree (η := PureHandler)) emptyGS = [] ∧
    GeneticSequence.getItem emptyGS (Locus.mk 3 2 Strand.reverse) = none :=
  ⟨rfl, (claim_C4 emptyGS rfl).1 5 emptyTree,
    (claim_C4 emptyGS rfl).2 (Locus.mk 3 2 Strand.reverse)⟩

/-- Once a header has been seen (`seq` is a string, not `None`), the fasta
loop can no longer fail: every branch keeps `seq` set. -/
theorem from_fasta_loop_some (lines : List (List Char)) :
    ∀ (com : Option (List Char)) (s : List Char)
      (result : List (List Char × GeneticSequence)),
      from_fasta_loop lines com (some s) result ≠ none := by
  induction lines with
  | nil =>
    intro com s result
    cases com <;> simp [from_fasta_loop]
  | cons line rest ih =>
    intro com s result
    rw [from_fasta_loop.eq_def]
    by_cases h1 : startsWithChar line '>'
    · simp only [h1, if_true]
      apply ih
    · by_cases h2 : startsWithChar line '!' <;>
        simp only [h1, h2, if_false, if_true, Bool.false_eq_true] <;>
        apply ih

/-- Before any header, the fasta loop fails exactly when some line of the
pre-header prefix is not a comment line. -/
theorem from_fasta_loop_none_iff (lines : List (List Char)) :
    ∀ result : List (List Char × GeneticSequence),
      from_fasta_loop lines none none result = none ↔
      ∃ line ∈ lines.takeWhile (fun l => !startsWithChar l '>'),
        startsWithChar line '>' = false ∧ startsWithChar line '!' = false := by
  induction lines with
  | nil =>
    intro result
    simp [from_fasta_loop]
  | cons line rest ih =>
    intro result
    rw [from_fasta_loop.eq_def, List.takeWhile_cons]
    by_cases h1 : startsWithChar line '>'
    · simp only [h1, if_true, Bool.not_true, Bool.false_eq_true, if_false,
        List.not_mem_nil, false_and, exists_false, iff_false]
      exact from_fasta_loop_some rest _ _ _
    · by_cases h2 : startsWithChar line '!'
      · simp only [h1, h2, if_false, if_true, Bool.false_eq_true, Bool.not_false,
          List.mem_cons]
        rw [ih]
        constructor
        · intro ⟨l, hl, hb⟩
          exact ⟨l, Or.inr hl, hb⟩
        · intro ⟨l, hl, hb⟩
          rcases hl with rfl | hl
          · rw [h2] at hb
            simp at hb
          · exact ⟨l, hl, hb⟩
      · simp only [h1, h2, if_false, Bool.false_eq_true, Bool.not_false, if_true,
          List.mem_cons]
        constructor
        · intro _
          exact ⟨line, Or.inl rfl,
            by simp [Bool.eq_false_iff.mpr h1, Bool.eq_false_iff.mpr h2]⟩
        · intro _
          trivial

/-- C10: `from_fasta` fails (the `seq += line` on `seq = None`, a Python
`TypeError`) exactly when some line before the first header line is neither
a header (`'>'`) nor a comment (`'!'`); the empty input, whose single empty
line is such a line, fails too. -/
theorem claim_C10 :
    from_fasta [] = none ∧
    ∀ fasta : List Char,
      (from_fasta fasta = none ↔
        ∃ line ∈ (splitLines fasta).takeWhile (fun l => !startsWithChar l '>'),
          startsWithChar line '>' = false ∧ startsWithChar line '!' = false) := by
  refine ⟨rfl, fun fasta => ?_⟩
  exact from_fasta_loop_none_iff (splitLines fasta) []

/-- Materializing the concatenation of two emission lists: the left part is
processed first, errors propagate, and on success the results concatenate. -/
theorem processEmits_append {ε : Type} (seq : GeneticSequence)
    (xs ys : List (Locus × Option (HandlerE ε))) :
    processEmits seq (xs ++ ys) =
      match processEmits seq xs with
      | Except.error e => Except.error e
      | Except.ok a =>
        match processEmits seq ys with
        | Except.error e => Except.error e
        | Except.ok b => Except.ok (a ++ b) := by
  induction xs with
  | nil =>
    simp only [List.nil_append, processEmits]
    cases processEmits seq ys <;> simp
  | cons x rest ih =>
    obtain ⟨loc, oh⟩ := x
    cases oh with
    | none =>
      simp only [List.cons_append, processEmits, List.append_eq, ih]
      cases processEmits seq rest <;> cases processEmits seq ys <;> simp
    | some h =>
      simp only [List.cons_append, processEmits, List.append_eq, ih]
      cases h seq loc <;> cases processEmits seq rest <;>
        cases processEmits seq ys <;> simp

/-- The inner result loop is the materialization of its recorded emissions. -/
theorem emitResultsE_eq {ε : Type} (seq : GeneticSequence) (i depth : Nat)
    (rs : List (Strand × Option (HandlerE ε))) :
    emitResultsE seq i depth rs =
      processEmits seq (rs.map (fun p => (emittedLocus i depth p.1, p.2))) := by
  induction rs with
  | nil => rfl
  | cons p rest ih =>
    obtain ⟨st, oh⟩ := p
    cases oh with
    | none =>
      simp only [List.map_cons, emitResultsE, emitOneE, processEmits, ih]
    | some h =>
      simp only [List.map_cons, emitResultsE, emitOneE, processEmits, ih]

/-- The raising walk is the materialization of the recorded emissions of the
instrumented walk. -/
theorem walkE_eq_processEmits {ε : Type} (seq : GeneticSequence) (i : Nat) :
    ∀ (fuel : Nat) (t : SearchTree (HandlerE ε)) (depth : Nat),
      walkE seq i fuel t depth = processEmits seq (walkEmits seq i fuel t depth) := by
  intro fuel
  induction fuel with
  | zero => intro t depth; rfl
  | succ n ih =>
    intro t depth
    rw [walkE, walkEmits]
    cases lookupBranch t.branches
        (seq.forward.getD ((i + depth) % seq.forward.length) '?') with
    | none => rfl
    | some child =>
      simp only [emitResultsE_eq, ih, processEmits_append]

/-- The scan loop over a list of starting offsets is the materialization of
their concatenated emissions, prefixed by the accumulator on success. -/
theorem search_inE_loop_eq {ε : Type} (fuel : Nat) (tree : SearchTree (HandlerE ε))
    (seq : GeneticSequence) :
    ∀ (is : List Nat) (acc : List Site),
      search_inE_loop fuel tree seq is acc =
        match processEmits seq (is.flatMap (fun i => walkEmits seq i fuel tree 0)) with
        | Except.error e => Except.error e
        | Except.ok r => Except.ok (acc ++ r) := by
  intro is
  induction is with
  | nil =>
    intro acc
    simp [search_inE_loop, processEmits]
  | cons i rest ih =>
    intro acc
    rw [search_inE_loop, walkE_eq_processEmits, List.flatMap_cons, processEmits_append]
    simp only [ih]
    cases processEmits seq (walkEmits seq i fuel tree 0) with
    | error e => rfl
    | ok r =>
      cases processEmits seq (rest.flatMap fun j => walkEmits seq j fuel tree 0) with
      | error e => rfl
      | ok b => simp [List.append_assoc]

/-- The raising scan is the materialization, in order, of all emissions. -/
theorem search_inE_eq {ε : Type} (fuel : Nat) (tree : SearchTree (HandlerE ε))
    (seq : GeneticSequence) :
    search_inE fuel tree seq = processEmits seq (allEmits fuel tree seq) := by
  rw [search_inE, allEmits, search_inE_loop_eq]
  cases processEmits seq ((List.range seq.len).flatMap fun i => walkEmits seq i fuel tree 0) with
  | error e => rfl
  | ok r => simp

/-- If every handler before a failing emission succeeds, materialization
returns exactly the failing handler's error, whatever follows it. -/
theorem processEmits_first_error {ε : Type} (seq : GeneticSequence)
    (loc : Locus) (h : HandlerE ε) (e : ε) :
    ∀ (pre post : List (Locus × Option (HandlerE ε))),
      (∀ q ∈ pre, ∀ g, q.2 = some g → ∃ s, g seq q.1 = Except.ok s) →
      h seq loc = Except.error e →
      processEmits seq (pre ++ (loc, some h) :: post) = Except.error e := by
  intro pre
  induction pre with
  | nil =>
    intro post _ he
    simp only [List.nil_append, processEmits, he]
  | cons q rest ih =>
    intro post hpre he
    obtain ⟨l, og⟩ := q
    cases og with
    | none =>
      simp only [List.cons_append, processEmits, List.append_eq]
      rw [ih post (fun q hq => hpre q (List.mem_cons_of_mem _ hq)) he]
    | some g =>
      obtain ⟨s, hs⟩ := hpre (l, some g) (List.mem_cons_self _ _) g rfl
      simp only [List.cons_append, processEmits, List.append_eq, hs]
      rw [ih post (fun q hq => hpre q (List.mem_cons_of_mem _ hq)) he]

/-- C8: if, in emission order, every handler invoked before some emission
succeeds and that emission's handler fails with error `e`, then `search_in`
propagates exactly that error: no result list is produced, and the outcome is
independent of everything recorded after the failing invocation (the `post`
emissions are arbitrary and never influence the result). -/
theorem claim_C8 :
    ∀ (ε : Type) (fuel : Nat) (tree : SearchTree (HandlerE ε)) (seq : GeneticSequence)
      (pre post : List (Locus × Option (HandlerE ε))) (loc : Locus)
      (h : HandlerE ε) (e : ε),
      allEmits fuel tree seq = pre ++ (loc, some h) :: post →
      (∀ q ∈ pre, ∀ g, q.2 = some g → ∃ s, g seq q.1 = Except.ok s) →
      h seq loc = Except.error e →
      search_inE fuel tree seq = Except.error e := by
  intro ε fuel tree seq pre post loc h e hsplit hpre he
  rw [search_inE_eq, hsplit]
  exact processEmits_first_error seq loc h e pre post hpre he

/-- C8 witness: a failing handler registered for pattern `"A"`, scanned over
the one-symbol target `"A"`: the single emission's handler fails and the
scan returns exactly that error. -/
theorem claim_C8_witness :
    allEmits 2 failTrie seqA =
      [] ++ (Locus.mk 0 1 Strand.forward, some failHandler) :: [] ∧
    failHandler seqA (Locus.mk 0 1 Strand.forward) =
      Except.error ['b', 'o', 'o', 'm'] ∧
    search_inE 2 failTrie seqA = Except.error ['b', 'o', 'o', 'm'] := by
  refine ⟨rfl, rfl, ?_⟩
  exact claim_C8 (List Char) 2 failTrie seqA [] []
    (Locus.mk 0 1 Strand.forward) failHandler ['b', 'o', 'o', 'm'] rfl
    (by simp) rfl

end Mitocore
